import Mathlib

/-
Verification development for the Jungle-PintOS kernel sources.

The scheduler state of src/threads/thread.c is embedded as a record of
the global lists (ready_list, waiting_list, destruction_req) holding
thread identifiers, together with a map from identifier to the
per-thread fields used by the code (status, priority, wakeup_time).
A thread identifier models the address of the TCB page, so membership
of an identifier in the freed list models the page having been passed
to palloc_free_page.  Each C function is translated to a state
transformer that performs exactly the mutations the source performs,
in source order.  Interrupt disable and restore brackets, assertions
and the register switch are control without data effect on these
globals; assertions become hypotheses of the theorems.
-/

namespace Pintos

/-- Thread status, from enum thread_status in include/threads/thread.h. -/
inductive Status where
  | running
  | ready
  | blocked
  | dying
deriving DecidableEq

/-- Per-thread fields of struct thread (include/threads/thread.h) that the
claims mention: status, priority and wakeup_time.  The donation fields
declared in the struct (initial_priority, wait_on_lock, donations) are
never read or written by any function in src/threads/thread.c, so they
are omitted from the model. -/
structure TD where
  status : Status
  priority : Int
  wakeup_time : Int
deriving DecidableEq

/-- Global scheduler state of src/threads/thread.c: the lists hold thread
identifiers (TCB page addresses), threads is the per-thread data, running
is the current thread, freed records pages given to palloc_free_page,
pending_yield models the intr_yield_on_return flag and thread_ticks the
slice counter. -/
structure KState where
  threads : Nat → TD
  running : Nat
  ready_list : List Nat
  waiting_list : List Nat
  destruction_req : List Nat
  freed : List Nat
  idle_tid : Nat
  initial_tid : Nat
  pending_yield : Bool
  thread_ticks : Nat

/-- Point update of the per-thread map, modelling a write through a
struct thread pointer. -/
def updThread (st : KState) (t : Nat) (f : TD → TD) : KState :=
  { st with threads := fun x => if x = t then f (st.threads x) else st.threads x }

/-- thread_unblock, src/threads/thread.c lines 201-221: push the thread at
the back of ready_list with list_push_back, then set its status to READY.
The asserts (is_thread, status BLOCKED) become hypotheses where needed. -/
def thread_unblock (st : KState) (t : Nat) : KState :=
  updThread { st with ready_list := st.ready_list ++ [t] } t
    (fun td => { td with status := .ready })

/-- next_thread_to_run, src/threads/thread.c lines 421-426: if ready_list
is empty return the idle thread, else pop the front of ready_list.  The
pair is the chosen thread and the ready_list after the pop. -/
def next_thread_to_run (st : KState) : Nat × List Nat :=
  match st.ready_list with
  | [] => (st.idle_tid, [])
  | t :: ts => (t, ts)

/-- schedule, src/threads/thread.c lines 541-576: pick next via
next_thread_to_run, mark it RUNNING, reset thread_ticks, and, when the
outgoing thread differs from next, is DYING and is not the initial
thread, append it to destruction_req; then switch to next.  The register
switch (thread_launch) has no effect on the modelled globals. -/
def schedule (st : KState) : KState :=
  let next := (next_thread_to_run st).1
  let rest := (next_thread_to_run st).2
  let curr := st.running
  let st2 := updThread { st with ready_list := rest, thread_ticks := 0 } next
    (fun td => { td with status := .running })
  let st3 :=
    if curr ≠ next ∧ (st2.threads curr).status = .dying ∧ curr ≠ st2.initial_tid
    then { st2 with destruction_req := st2.destruction_req ++ [curr] }
    else st2
  { st3 with running := next }

/-- do_schedule, src/threads/thread.c lines 529-539: free every page on
destruction_req, set the status of the running thread to the argument,
then call schedule. -/
def do_schedule (st : KState) (status : Status) : KState :=
  let st1 := { st with freed := st.freed ++ st.destruction_req, destruction_req := [] }
  schedule (updThread st1 st1.running (fun td => { td with status := status }))

/-- thread_block, src/threads/thread.c lines 187-198: set the running
thread to BLOCKED and call schedule (directly, not via do_schedule). -/
def thread_block (st : KState) : KState :=
  schedule (updThread st st.running (fun td => { td with status := .blocked }))

/-- thread_yield, src/threads/thread.c lines 270-285: unless the caller is
the idle thread, push it at the back of ready_list, then do_schedule with
status READY. -/
def thread_yield (st : KState) : KState :=
  let st1 :=
    if st.running = st.idle_tid then st
    else { st with ready_list := st.ready_list ++ [st.running] }
  do_schedule st1 .ready

/-- thread_exit tail, src/threads/thread.c lines 250-256: do_schedule with
status DYING.  process_exit and the asserts are outside the modelled
globals. -/
def thread_exit (st : KState) : KState :=
  do_schedule st .dying

/-- thread_create success path, src/threads/thread.c lines 154-184: the
fresh page t is initialised by init_thread (memset 0, status BLOCKED, the
given priority) and the new thread is handed to thread_unblock.  The tid
allocation and the register frame setup do not touch the modelled
globals; the palloc failure path returns TID_ERROR with no state change
and is not modelled. -/
def thread_create (st : KState) (t : Nat) (priority : Int) : KState :=
  let init : TD := { status := .blocked, priority := priority, wakeup_time := 0 }
  let st1 := { st with threads := fun x => if x = t then init else st.threads x }
  thread_unblock st1 t

/-- thread_set_priority, src/threads/thread.c lines 317-319: assign the
argument to the priority field of the running thread.  Nothing else. -/
def thread_set_priority (st : KState) (p : Int) : KState :=
  updThread st st.running (fun td => { td with priority := p })

/-- thread_sleep, src/threads/thread.c lines 287-301: store the argument
into the wakeup_time field of the caller, push the caller at the back of
waiting_list with list_push_back, then thread_block.  The assert that the
caller is not the idle thread becomes a hypothesis. -/
def thread_sleep (st : KState) (ticks : Int) : KState :=
  let st1 := updThread st st.running (fun td => { td with wakeup_time := ticks })
  thread_block { st1 with waiting_list := st1.waiting_list ++ [st1.running] }

/-- Loop body of thread_wakeup, src/threads/thread.c lines 303-314: scan
the whole waiting list front to back; an entry whose wakeup_time is at
most the argument is removed (list_remove) and handed to thread_unblock,
any other entry stays.  The first component is the surviving waiting
list, in order. -/
def thread_wakeup_go (now : Int) : List Nat → KState → List Nat × KState
  | [], st => ([], st)
  | t :: rest, st =>
    if (st.threads t).wakeup_time ≤ now then
      thread_wakeup_go now rest (thread_unblock st t)
    else
      let p := thread_wakeup_go now rest st
      (t :: p.1, p.2)

/-- thread_wakeup, src/threads/thread.c lines 303-314. -/
def thread_wakeup (st : KState) (now : Int) : KState :=
  let p := thread_wakeup_go now st.waiting_list st
  { p.2 with waiting_list := p.1 }

/-- TIME_SLICE, src/threads/thread.c line 47. -/
def TIME_SLICE : Nat := 4

/-- thread_tick, src/threads/thread.c lines 129-145: increment the slice
counter and, once it reaches TIME_SLICE, request preemption on interrupt
return (intr_yield_on_return, modelled by the pending_yield flag). -/
def thread_tick (st : KState) : KState :=
  let st1 := { st with thread_ticks := st.thread_ticks + 1 }
  if st1.thread_ticks ≥ TIME_SLICE then { st1 with pending_yield := true } else st1

/-- Property claimed of next_thread_to_run by the spec: the chosen thread
has maximal priority among the threads on the ready queue (READY threads
are exactly those on ready_list). -/
def returnsMaxReady (st : KState) : Prop :=
  ∀ t ∈ st.ready_list,
    (st.threads t).priority ≤ (st.threads (next_thread_to_run st).1).priority

/-- Sleep-set order claimed by the spec: waiting_list ascending by
wakeup_time. -/
def wakeSorted (st : KState) : List Nat → Bool
  | [] => true
  | [_] => true
  | a :: b :: r =>
    ((st.threads a).wakeup_time ≤ (st.threads b).wakeup_time) && wakeSorted st (b :: r)

/-
System call boundary, src/userprog/syscall.c.  Addresses are modelled as
natural numbers below 2 to the 64 (NULL is 0).  The kernel services the
handlers call into (filesys, process table, input) live outside src, so
they are abstracted as environment-supplied results; none of them can
terminate the calling process, which only sys_exit does.  A handler
returns in the Except monad: error s models sys_exit(s) (the process is
terminated with status s and the call never returns to the caller),
ok v models a normal return with value v.
-/

/-- Environment of the syscall layer: the page table of the caller and
the results of the external services.  The field is_user models
is_user_vaddr from the missing threads/vaddr.h header.  Modelled from
the spec: is_user_vaddr is true exactly when the address is resident in
the user half of the virtual address space.  The field mapped models
pml4_get_page(thread_current()->pml4, addr) being non-NULL. -/
structure SysEnv where
  is_user : Nat → Bool
  mapped : Nat → Bool
  palloc_ok : Bool
  exec_ret : Int
  exec_ret2 : Int
  fork_ret : Int
  wait_ret : Int
  create_ret : Bool
  remove_ret : Bool
  open_ret : Int
  file_write_ret : Int
  file_read_ret : Int
  stdin_read_ret : Int
  has_file : Int → Bool
  undef_int : Int

/-- check_address, src/userprog/syscall.c lines 95-102: three checks in
source order, NULL, is_user_vaddr, pml4_get_page; each failure calls
sys_exit(-1), so the process is terminated and the check never returns. -/
def check_address (env : SysEnv) (addr : Nat) : Except Int Unit :=
  if addr = 0 then .error (-1)
  else if !(env.is_user addr) then .error (-1)
  else if !(env.mapped addr) then .error (-1)
  else .ok ()

/-- sys_create, src/userprog/syscall.c lines 113-120: validate the file
name pointer, then return the filesys_create result. -/
def sys_create (env : SysEnv) (file : Nat) (_initial_size : Nat) : Except Int Bool := do
  let _ ← check_address env file
  pure env.create_ret

/-- sys_remove, src/userprog/syscall.c lines 122-129. -/
def sys_remove (env : SysEnv) (file : Nat) : Except Int Bool := do
  let _ ← check_address env file
  pure env.remove_ret

/-- sys_open, src/userprog/syscall.c lines 188-199: validate the file
name pointer; the filesys_open and process_add_file path is abstracted
to an environment-supplied fd or -1; it terminates the process in no
case. -/
def sys_open (env : SysEnv) (file : Nat) : Except Int Int := do
  let _ ← check_address env file
  pure env.open_ret

/-- write, src/userprog/syscall.c lines 131-153: validate only the first
byte of the buffer, then dispatch on fd: STDOUT (1) returns size after
putbuf, STDIN (0) returns -1, otherwise process_get_file and file_write
under the filesystem lock, or -1 when the fd is not open. -/
def write (env : SysEnv) (fd : Int) (buffer : Nat) (size : Nat) : Except Int Int := do
  let _ ← check_address env buffer
  if fd = 1 then pure (Int.ofNat size)
  else if fd = 0 then pure (-1)
  else if env.has_file fd then pure env.file_write_ret
  else pure (-1)

/-- sys_read, src/userprog/syscall.c lines 155-184: validate the first
byte of the buffer and the last byte, buffer + size - 1, computed in
64-bit pointer arithmetic; then process_get_file (NULL gives -1), the
STDIN input loop for fd 0, file_read for fd at least 2, and -1
otherwise. -/
def sys_read (env : SysEnv) (fd : Int) (buffer : Nat) (size : Nat) : Except Int Int := do
  let _ ← check_address env buffer
  let _ ← check_address env ((buffer + size + (2 ^ 64 - 1)) % 2 ^ 64)
  if !(env.has_file fd) then pure (-1)
  else if fd = 0 then pure env.stdin_read_ret
  else if fd ≥ 2 then pure env.file_read_ret
  else pure (-1)

/-- exec, src/userprog/syscall.c lines 207-223: validate the command line
pointer, copy it into a fresh page (sys_exit(-1) when the allocation
fails), call process_exec on the copy discarding the result, free the
page, call process_exec on the copy again and sys_exit(-1) when that
second call returns -1; otherwise the function falls off its end and
returns an unspecified int.  The first component counts the invocations
of process_exec. -/
def exec (env : SysEnv) (cmd_line : Nat) : Nat × Except Int Int :=
  match check_address env cmd_line with
  | .error e => (0, .error e)
  | .ok _ =>
    if !env.palloc_ok then (0, .error (-1))
    else if env.exec_ret2 = -1 then (2, .error (-1))
    else (2, .ok env.undef_int)

/-- fork, src/userprog/syscall.c lines 225-227: hand the name pointer and
the frame straight to process_fork; no validation of any kind. -/
def fork (env : SysEnv) (_thread_name : Nat) : Except Int Int :=
  pure env.fork_ret

/-- wait, src/userprog/syscall.c line 186. -/
def wait (env : SysEnv) (_pid : Int) : Except Int Int :=
  pure env.wait_ret

/-- close, src/userprog/syscall.c lines 201-205: file_close and
process_close_file are abstracted; no validation, no exit. -/
def close (_env : SysEnv) (_fd : Int) : Except Int Unit :=
  pure ()

/-- Register arguments of one syscall, by number, as read from the intr
frame by syscall_handler (src/userprog/syscall.c lines 48-93).  Pointer
arguments are addresses. -/
inductive Syscall where
  | halt
  | exit (status : Int)
  | fork (thread_name : Nat)
  | exec (cmd_line : Nat)
  | wait (pid : Int)
  | create (file : Nat) (initial_size : Nat)
  | remove (file : Nat)
  | open (file : Nat)
  | filesize (fd : Int)
  | read (fd : Int) (buffer : Nat) (size : Nat)
  | write (fd : Int) (buffer : Nat) (size : Nat)
  | seek (fd : Int) (pos : Nat)
  | tell (fd : Int)
  | close (fd : Int)
deriving DecidableEq

/-- Outcome of one pass through syscall_handler: the process exited (via
sys_exit, which never returns control to it), the machine powered off
(SYS_HALT), or the handler returned to the process, with the value
stored into the rax of the frame when the case assigns one. -/
inductive SysOutcome where
  | exited (status : Int)
  | powered_off
  | returned (rax : Option Int)
deriving DecidableEq

/-- Lift of an Except-producing handler into the outcome of the
dispatcher cases that assign f->R.rax. -/
def liftOut : Except Int Int → SysOutcome
  | .ok v => .returned (some v)
  | .error e => .exited e

/-- syscall_handler, src/userprog/syscall.c lines 48-93: switch on the
syscall number.  SYS_FILESIZE, SYS_SEEK and SYS_TELL have empty cases
and fall through to break; the bool results of create and remove are
widened to the int register. -/
def syscall_handler (env : SysEnv) (sc : Syscall) : SysOutcome :=
  match sc with
  | .halt => .powered_off
  | .exit s => .exited s
  | .fork name => liftOut (fork env name)
  | .exec cmd => liftOut (exec env cmd).2
  | .wait pid => liftOut (wait env pid)
  | .create f sz =>
    match sys_create env f sz with
    | .ok b => .returned (some (if b then 1 else 0))
    | .error e => .exited e
  | .remove f =>
    match sys_remove env f with
    | .ok b => .returned (some (if b then 1 else 0))
    | .error e => .exited e
  | .open f => liftOut (sys_open env f)
  | .filesize _ => .returned none
  | .read fd buf n => liftOut (sys_read env fd buf n)
  | .write fd buf n => liftOut (write env fd buf n)
  | .seek _ _ => .returned none
  | .tell _ => .returned none
  | .close fd =>
    match close env fd with
    | .ok _ => .returned none
    | .error e => .exited e

/-
Intrusive list sort, src/lib/kernel/list.c.  A list of embedded nodes is
embedded as a Lean list whose elements stand for the nodes themselves
(their identity models the node address), so a permutation of the Lean
list is exactly a rearrangement of the same nodes with no copy.  The
comparator less(a,b,aux) becomes a Bool-valued binary relation with aux
already applied.
-/

/-- find_end_of_run, src/lib/kernel/list.c lines 259-271: starting from a
first element, keep advancing while the next element is not less than
its predecessor.  Returns the run (always containing the first element)
and the remainder of the list. -/
def find_end_of_run (less : α → α → Bool) : α → List α → List α × List α
  | x, [] => ([x], [])
  | x, y :: ys =>
    if less y x then ([x], y :: ys)
    else
      let p := find_end_of_run less y ys
      (x :: p.1, p.2)

/-- Decomposition of a list into the maximal non-descending runs that the
outer loop of list_sort walks over (src/lib/kernel/list.c lines 302-317):
each for-iteration takes the run at a0 and, when a second run follows,
the run at a1b0. -/
def runsOf (less : α → α → Bool) : List α → List (List α)
  | [] => []
  | x :: xs =>
    let p := find_end_of_run less x xs
    p.1 :: runsOf less p.2
termination_by l => l.length
decreasing_by
  have h : ∀ (x : α) (xs : List α), (find_end_of_run less x xs).2.length ≤ xs.length := by
    intro x xs
    induction xs generalizing x with
    | nil => simp [find_end_of_run]
    | cons y ys ih =>
      by_cases h : less y x
      · simp [find_end_of_run, h]
      · simpa [find_end_of_run, h] using Nat.le_succ_of_le (ih y)
  simpa using Nat.lt_succ_of_le (h x xs)

/-- inplace_merge, src/lib/kernel/list.c lines 275-292: while both
segments are non-empty, advance the front of the first segment when the
front of the second is not less than it, and otherwise splice the front
of the second segment before the front of the first; a drained segment
leaves the remainder of the other in place. -/
def inplace_merge (less : α → α → Bool) : List α → List α → List α
  | xs, [] => xs
  | [], ys => ys
  | x :: xs, y :: ys =>
    if less y x then y :: inplace_merge less (x :: xs) ys
    else x :: inplace_merge less xs (y :: ys)

/-- One pass of the outer do-while loop of list_sort over the run
decomposition: merge each adjacent pair of runs, leave a trailing lone
run as is.  The length of the returned list of segments is exactly the
output_run_cnt the pass computes. -/
def mergePairs (less : α → α → Bool) : List (List α) → List (List α)
  | [] => []
  | [r] => [r]
  | r1 :: r2 :: rs => inplace_merge less r1 r2 :: mergePairs less rs

/-- One full pass of list_sort: the list after the pass and the
output_run_cnt of the pass. -/
def sortPass (less : α → α → Bool) (l : List α) : List α × Nat :=
  let segs := mergePairs less (runsOf less l)
  (segs.flatten, segs.length)

/-- The do-while loop of list_sort, src/lib/kernel/list.c lines 302-318,
with explicit fuel: run a pass, stop when output_run_cnt is at most 1.
Returns none when the fuel runs out before the loop exits. -/
def list_sort_loop (less : α → α → Bool) : Nat → List α → Option (List α)
  | 0, _ => none
  | fuel + 1, l =>
    let p := sortPass less l
    if p.2 > 1 then list_sort_loop less fuel p.1 else some p.1

/-- list_sort, src/lib/kernel/list.c lines 296-321.  The fuel
length + 1 is an upper bound proved sufficient below, so a some result
states that the do-while loop of the C code terminates. -/
def list_sort (less : α → α → Bool) (l : List α) : Option (List α) :=
  list_sort_loop less (l.length + 1) l

/-- Non-decreasing order under the comparator, as checked by is_sorted in
src/lib/kernel/list.c lines 248-255: no adjacent pair has the later
element less than the earlier. -/
def sortedUnder (less : α → α → Bool) (l : List α) : Prop :=
  List.Chain' (fun a b => less b a = false) l

/-- Strict weak order contract of the comparator, src/lib/kernel/list.c
comparator contract: irreflexive, transitive, and with transitive
incomparability. -/
def StrictWeak (less : α → α → Bool) : Prop :=
  (∀ a, less a a = false) ∧
  (∀ a b c, less a b = true → less b c = true → less a c = true) ∧
  (∀ a b c, less a b = false → less b a = false → less b c = false → less c b = false →
    less a c = false)

/-- Number of descents of a list: adjacent pairs where the later element
is less than the earlier.  Runs are separated exactly at descents. -/
def descents (less : α → α → Bool) : List α → Nat
  | [] => 0
  | [_] => 0
  | a :: b :: r => (if less b a then 1 else 0) + descents less (b :: r)

/-
Concrete states and environments used by the counterexample and witness
theorems below.
-/

/-- Thread map with thread 1 at priority 1 and thread 2 at priority 5,
both BLOCKED, every other thread RUNNING at the default priority 31. -/
def c1map : Nat → TD := fun t =>
  if t = 1 then ⟨.blocked, 1, 0⟩ else if t = 2 then ⟨.blocked, 5, 0⟩ else ⟨.running, 31, 0⟩

/-- Scheduler state with thread 0 running and an empty ready queue. -/
def c1base : KState :=
  { threads := c1map, running := 0, ready_list := [], waiting_list := [],
    destruction_req := [], freed := [], idle_tid := 99, initial_tid := 0,
    pending_yield := false, thread_ticks := 0 }

/-- State after unblocking the priority-1 thread and then the priority-5
thread. -/
def c1state : KState := thread_unblock (thread_unblock c1base 1) 2

/-- Thread map with thread 1 BLOCKED at priority 50 and every other
thread RUNNING at priority 31. -/
def c2map : Nat → TD := fun t =>
  if t = 1 then ⟨.blocked, 50, 0⟩ else ⟨.running, 31, 0⟩

/-- Scheduler state with the priority-31 thread 0 running. -/
def c2base : KState :=
  { threads := c2map, running := 0, ready_list := [], waiting_list := [],
    destruction_req := [], freed := [], idle_tid := 99, initial_tid := 0,
    pending_yield := false, thread_ticks := 0 }

/-- State after thread 0 unblocks the higher-priority thread 1. -/
def c2state : KState := thread_unblock c2base 1

/-- Thread map for the sleep counterexample: thread 1 is asleep with
deadline 10, thread 2 is ready, thread 0 runs. -/
def c3map : Nat → TD := fun t =>
  if t = 1 then ⟨.blocked, 31, 10⟩ else if t = 2 then ⟨.ready, 31, 0⟩ else ⟨.running, 31, 0⟩

/-- Scheduler state whose sleep set holds thread 1 with deadline 10. -/
def c3base : KState :=
  { threads := c3map, running := 0, ready_list := [2], waiting_list := [1],
    destruction_req := [], freed := [], idle_tid := 99, initial_tid := 0,
    pending_yield := false, thread_ticks := 0 }

/-- State after the running thread 0 calls thread_sleep with deadline 5,
smaller than the deadline 10 already on the sleep set. -/
def c3state : KState := thread_sleep c3base 5

/-- Thread map for the wakeup witness: threads 1, 2, 3 asleep with
deadlines 5, 20 and 7. -/
def c4map : Nat → TD := fun t =>
  if t = 1 then ⟨.blocked, 31, 5⟩ else if t = 2 then ⟨.blocked, 31, 20⟩
  else if t = 3 then ⟨.blocked, 31, 7⟩ else ⟨.running, 31, 0⟩

/-- Scheduler state whose sleep set holds threads 1, 2, 3. -/
def c4base : KState :=
  { threads := c4map, running := 0, ready_list := [], waiting_list := [1, 2, 3],
    destruction_req := [], freed := [], idle_tid := 99, initial_tid := 0,
    pending_yield := false, thread_ticks := 0 }

/-- Thread map for the set_priority counterexample: thread 1 READY at
priority 50, thread 0 RUNNING at priority 31. -/
def c5map : Nat → TD := fun t =>
  if t = 1 then ⟨.ready, 50, 0⟩ else ⟨.running, 31, 0⟩

/-- Scheduler state with thread 1 on the ready queue at priority 50. -/
def c5base : KState :=
  { threads := c5map, running := 0, ready_list := [1], waiting_list := [],
    destruction_req := [], freed := [], idle_tid := 99, initial_tid := 0,
    pending_yield := false, thread_ticks := 0 }

/-- State after the running thread 0 lowers its own priority to 10. -/
def c5state : KState := thread_set_priority c5base 10

/-- Thread map for the exit witness: thread 5 RUNNING, thread 7 READY. -/
def c7map : Nat → TD := fun t =>
  if t = 5 then ⟨.running, 31, 0⟩ else if t = 7 then ⟨.ready, 31, 0⟩ else ⟨.blocked, 31, 0⟩

/-- Scheduler state in which thread 5 (neither initial nor idle) is about
to exit while thread 7 is ready. -/
def c7base : KState :=
  { threads := c7map, running := 5, ready_list := [7], waiting_list := [],
    destruction_req := [], freed := [], idle_tid := 99, initial_tid := 0,
    pending_yield := false, thread_ticks := 0 }

/-- Syscall environment in which no address at all is user-resident or
mapped, so every pointer argument is invalid. -/
def c8env : SysEnv :=
  { is_user := fun _ => false, mapped := fun _ => false, palloc_ok := true,
    exec_ret := 0, exec_ret2 := 0, fork_ret := 7, wait_ret := 0,
    create_ret := true, remove_ret := true, open_ret := 3,
    file_write_ret := 0, file_read_ret := 0, stdin_read_ret := 0,
    has_file := fun _ => false, undef_int := 0 }

/-- Syscall environment in which exactly the addresses 4096 to 8191 are
user-resident and mapped, allocation succeeds, and process_exec returns
-1 on the second invocation. -/
def c9env : SysEnv :=
  { is_user := fun a => 4096 ≤ a && a < 8192, mapped := fun a => 4096 ≤ a && a < 8192,
    palloc_ok := true, exec_ret := 0, exec_ret2 := -1, fork_ret := 7, wait_ret := 0,
    create_ret := true, remove_ret := true, open_ret := 3,
    file_write_ret := 0, file_read_ret := 0, stdin_read_ret := 0,
    has_file := fun _ => false, undef_int := 0 }

/-- Syscall environment in which only the single address 100 is
user-resident and mapped. -/
def c10env : SysEnv :=
  { is_user := fun a => a = 100, mapped := fun a => a = 100, palloc_ok := true,
    exec_ret := 0, exec_ret2 := 0, fork_ret := 7, wait_ret := 0,
    create_ret := true, remove_ret := true, open_ret := 3,
    file_write_ret := 0, file_read_ret := 0, stdin_read_ret := 0,
    has_file := fun _ => false, undef_int := 0 }

/-- Strict order on naturals as a concrete comparator for the sort
witness. -/
def lessNat : Nat → Nat → Bool := fun a b => a < b

/-
Theorems.  Claim theorems are named after the claim identifiers of the
specification review; helper lemmas carry descriptive names.
-/

/-- C1 counterexample: in the state reached by unblocking a priority-1
thread and then a priority-5 thread, next_thread_to_run returns the
priority-1 thread, which is not of maximum priority among the READY
threads, so the claimed priority ordering of the ready queue fails. -/
theorem C1_counterexample :
    ¬ returnsMaxReady c1state ∧
    (c1state.threads 2).status = .ready ∧ (c1state.threads 2).priority = 5 ∧
    (c1state.threads (next_thread_to_run c1state).1).priority = 1 := by
  refine ⟨?_, by decide, by decide, by decide⟩
  unfold returnsMaxReady
  decide

/-- C1 amended: next_thread_to_run returns the idle thread when the ready
queue is empty and otherwise pops the front of the ready queue, while
thread_unblock appends at the back, so dispatch order is pure FIFO
insertion order, with no regard to priority. -/
theorem C1_amended :
    (∀ st : KState, st.ready_list = [] → (next_thread_to_run st).1 = st.idle_tid) ∧
    (∀ (st : KState) (t : Nat) (ts : List Nat), st.ready_list = t :: ts →
      (next_thread_to_run st).1 = t ∧ (next_thread_to_run st).2 = ts) ∧
    (∀ (st : KState) (t : Nat), (thread_unblock st t).ready_list = st.ready_list ++ [t]) := by
  refine ⟨?_, ?_, ?_⟩
  · intro st h
    simp [next_thread_to_run, h]
  · intro st t ts h
    simp [next_thread_to_run, h]
  · intro st t
    simp [thread_unblock, updThread]

/-- C1 amended witness at the concrete two-thread state. -/
theorem C1_amended_witness :
    (next_thread_to_run c1state).1 = 1 ∧ (next_thread_to_run c1state).2 = [2] ∧
    (thread_unblock c1base 1).ready_list = [] ++ [1] :=
  ⟨(C1_amended.2.1 c1state 1 [2] (by decide)).1,
   (C1_amended.2.1 c1state 1 [2] (by decide)).2,
   C1_amended.2.2 c1base 1⟩

/-- C2 counterexample: thread 0 (priority 31, RUNNING) unblocks thread 1
(priority 50).  After thread_unblock returns, thread 1 is READY with the
strictly higher priority, yet thread 0 is still the running thread and
no preemption on interrupt return is pending, so the claimed yield
before return does not happen. -/
theorem C2_counterexample :
    (c2base.threads c2base.running).priority = 31 ∧
    (c2state.threads 1).priority = 50 ∧
    (c2state.threads 1).status = .ready ∧
    c2state.running = 0 ∧
    (c2state.threads 0).status = .running ∧
    c2state.pending_yield = false ∧
    c2state.ready_list = [1] := by
  decide

/-- C2 amended: thread_unblock, thread_create and thread_set_priority
never hand over the CPU and never request deferred preemption: each
leaves the running thread and the pending preemption flag unchanged,
and the unblocked or created thread is merely appended at the back of
the ready queue. -/
theorem C2_amended : ∀ (st : KState) (t u : Nat) (p prio : Int),
    ((thread_unblock st t).running = st.running ∧
     (thread_unblock st t).pending_yield = st.pending_yield ∧
     (thread_unblock st t).ready_list = st.ready_list ++ [t]) ∧
    ((thread_create st u prio).running = st.running ∧
     (thread_create st u prio).pending_yield = st.pending_yield ∧
     (thread_create st u prio).ready_list = st.ready_list ++ [u]) ∧
    ((thread_set_priority st p).running = st.running ∧
     (thread_set_priority st p).pending_yield = st.pending_yield ∧
     (thread_set_priority st p).ready_list = st.ready_list) := by
  intro st t u p prio
  refine ⟨⟨rfl, rfl, ?_⟩, ⟨rfl, rfl, ?_⟩, rfl, rfl, rfl⟩
  · simp [thread_unblock, updThread]
  · simp [thread_create, thread_unblock, updThread]

/-- C3 counterexample: with a thread of deadline 10 already asleep, the
running thread calls thread_sleep with deadline 5; it is appended at the
back, so the sleep set is no longer ordered by wake deadline
ascending. -/
theorem C3_counterexample :
    wakeSorted c3base c3base.waiting_list = true ∧
    c3state.waiting_list = [1, 0] ∧
    (c3state.threads 1).wakeup_time = 10 ∧
    (c3state.threads 0).wakeup_time = 5 ∧
    wakeSorted c3state c3state.waiting_list = false := by
  decide

/-- C3 amended: thread_sleep stores the tick argument directly as the
wake deadline of the caller (the caller of thread_sleep supplies the
absolute deadline) and appends the caller at the back of the sleep set
with list_push_back, keeping no order, before blocking it. -/
theorem C3_amended : ∀ (st : KState) (ticks : Int),
    st.running ∉ st.ready_list → st.running ≠ st.idle_tid →
    (thread_sleep st ticks).waiting_list = st.waiting_list ++ [st.running] ∧
    ((thread_sleep st ticks).threads st.running).wakeup_time = ticks ∧
    ((thread_sleep st ticks).threads st.running).status = .blocked := by
  intro st ticks h1 h2
  rcases hr : st.ready_list with _ | ⟨n, ts⟩
  · have hni : ¬ (st.running = st.idle_tid) := h2
    refine ⟨?_, ?_, ?_⟩ <;>
      simp [thread_sleep, thread_block, schedule, next_thread_to_run, updThread, hr,
        apply_ite KState.waiting_list, apply_ite KState.threads, hni]
  · have hnn : ¬ (st.running = n) := by
      intro h
      exact h1 (by simp [hr, h])
    refine ⟨?_, ?_, ?_⟩ <;>
      simp [thread_sleep, thread_block, schedule, next_thread_to_run, updThread, hr,
        apply_ite KState.waiting_list, apply_ite KState.threads, hnn]

/-- C3 amended witness at the concrete sleep state. -/
theorem C3_amended_witness :
    (thread_sleep c3base 5).waiting_list = c3base.waiting_list ++ [c3base.running] ∧
    ((thread_sleep c3base 5).threads c3base.running).wakeup_time = 5 ∧
    ((thread_sleep c3base 5).threads c3base.running).status = .blocked :=
  C3_amended c3base 5 (by decide) (by decide)

/-- Effect of thread_unblock on the per-thread map: only the status of
the unblocked thread changes. -/
theorem unblock_threads (st : KState) (t x : Nat) :
    (thread_unblock st t).threads x
      = if x = t then { st.threads x with status := .ready } else st.threads x := by
  simp [thread_unblock, updThread]

/-- thread_unblock never touches a wakeup_time field. -/
theorem unblock_wakeup_time (st : KState) (t x : Nat) :
    ((thread_unblock st t).threads x).wakeup_time = (st.threads x).wakeup_time := by
  rw [unblock_threads]
  split <;> rfl

/-- Specification of the scan loop of thread_wakeup: the survivors are
exactly the entries whose deadline is in the future, in order; the due
entries are appended to the ready queue in scan order; the per-thread
map changes only by setting the status of due entries to READY. -/
theorem wakeup_go_spec (now : Int) : ∀ (l : List Nat) (st : KState),
    (thread_wakeup_go now l st).1
      = l.filter (fun t => !decide ((st.threads t).wakeup_time ≤ now)) ∧
    (thread_wakeup_go now l st).2.ready_list
      = st.ready_list ++ l.filter (fun t => decide ((st.threads t).wakeup_time ≤ now)) ∧
    (∀ x, (thread_wakeup_go now l st).2.threads x
      = if x ∈ l ∧ (st.threads x).wakeup_time ≤ now
        then { st.threads x with status := .ready } else st.threads x) ∧
    (thread_wakeup_go now l st).2.waiting_list = st.waiting_list ∧
    (thread_wakeup_go now l st).2.running = st.running := by
  intro l
  induction l with
  | nil =>
    intro st
    simp [thread_wakeup_go]
  | cons t rest ih =>
    intro st
    by_cases ht : (st.threads t).wakeup_time ≤ now
    · have hfun1 : (fun u => !decide (((thread_unblock st t).threads u).wakeup_time ≤ now))
          = (fun u => !decide ((st.threads u).wakeup_time ≤ now)) := by
        funext u
        rw [unblock_wakeup_time]
      have hfun2 : (fun u => decide (((thread_unblock st t).threads u).wakeup_time ≤ now))
          = (fun u => decide ((st.threads u).wakeup_time ≤ now)) := by
        funext u
        rw [unblock_wakeup_time]
      have h1 := ih (thread_unblock st t)
      refine ⟨?_, ?_, ?_, ?_, ?_⟩
      · rw [show thread_wakeup_go now (t :: rest) st
            = thread_wakeup_go now rest (thread_unblock st t) by simp [thread_wakeup_go, ht]]
        rw [h1.1, hfun1]
        simp [List.filter_cons, ht]
      · rw [show thread_wakeup_go now (t :: rest) st
            = thread_wakeup_go now rest (thread_unblock st t) by simp [thread_wakeup_go, ht]]
        rw [h1.2.1, hfun2]
        have hr : (thread_unblock st t).ready_list = st.ready_list ++ [t] := by
          simp [thread_unblock, updThread]
        rw [hr]
        simp [List.filter_cons, ht]
      · intro x
        rw [show thread_wakeup_go now (t :: rest) st
            = thread_wakeup_go now rest (thread_unblock st t) by simp [thread_wakeup_go, ht]]
        rw [h1.2.2.1 x, unblock_wakeup_time, unblock_threads]
        by_cases hx : x = t
        · subst hx
          by_cases hmem : x ∈ rest <;> simp [hmem, ht]
        · simp [hx, List.mem_cons]
      · rw [show thread_wakeup_go now (t :: rest) st
            = thread_wakeup_go now rest (thread_unblock st t) by simp [thread_wakeup_go, ht]]
        rw [h1.2.2.2.1]
        simp [thread_unblock, updThread]
      · rw [show thread_wakeup_go now (t :: rest) st
            = thread_wakeup_go now rest (thread_unblock st t) by simp [thread_wakeup_go, ht]]
        rw [h1.2.2.2.2]
        simp [thread_unblock, updThread]
    · have h1 := ih st
      have hgo : thread_wakeup_go now (t :: rest) st
          = (t :: (thread_wakeup_go now rest st).1, (thread_wakeup_go now rest st).2) := by
        simp [thread_wakeup_go, ht]
      refine ⟨?_, ?_, ?_, ?_, ?_⟩
      · rw [hgo]
        simp [List.filter_cons, ht, h1.1]
      · rw [hgo]
        simp [List.filter_cons, ht, h1.2.1]
      · intro x
        rw [hgo]
        have := h1.2.2.1 x
        simp only at this
        rw [this]
        by_cases hx : x = t
        · subst hx
          simp [ht]
        · simp [hx, List.mem_cons]
      · rw [hgo]
        exact h1.2.2.2.1
      · rw [hgo]
        exact h1.2.2.2.2

/-- C4: thread_wakeup removes from the sleep set and unblocks exactly
the threads whose wake deadline is at most now, appending them to the
ready queue in scan order as READY; every thread with a later deadline
stays on the sleep set in order, its thread data untouched and its
status still BLOCKED. -/
theorem C4_thm (st : KState) (now : Int)
    (hb : ∀ t ∈ st.waiting_list, (st.threads t).status = .blocked) :
    (thread_wakeup st now).waiting_list
      = st.waiting_list.filter (fun t => !decide ((st.threads t).wakeup_time ≤ now)) ∧
    (thread_wakeup st now).ready_list
      = st.ready_list
        ++ st.waiting_list.filter (fun t => decide ((st.threads t).wakeup_time ≤ now)) ∧
    (∀ t ∈ st.waiting_list, (st.threads t).wakeup_time ≤ now →
      ((thread_wakeup st now).threads t).status = .ready) ∧
    (∀ t ∈ st.waiting_list, ¬ ((st.threads t).wakeup_time ≤ now) →
      (thread_wakeup st now).threads t = st.threads t ∧
      ((thread_wakeup st now).threads t).status = .blocked) ∧
    (∀ x, x ∉ st.waiting_list → (thread_wakeup st now).threads x = st.threads x) := by
  have h := wakeup_go_spec now st.waiting_list st
  refine ⟨?_, ?_, ?_, ?_, ?_⟩
  · simpa [thread_wakeup] using h.1
  · simpa [thread_wakeup] using h.2.1
  · intro t hmem hdue
    have := h.2.2.1 t
    simp [thread_wakeup, this, hmem, hdue]
  · intro t hmem hlate
    have := h.2.2.1 t
    constructor
    · simp [thread_wakeup, this, hlate]
    · simp [thread_wakeup, this, hlate]
      exact hb t hmem
  · intro x hx
    have := h.2.2.1 x
    simp [thread_wakeup, this, hx]

/-- C4 witness: with threads 1, 2, 3 asleep at deadlines 5, 20, 7, a
wakeup at tick 7 unblocks threads 1 and 3 in order and keeps thread 2
asleep and BLOCKED. -/
theorem C4_witness :
    (∀ t ∈ c4base.waiting_list, (c4base.threads t).status = .blocked) ∧
    (thread_wakeup c4base 7).waiting_list = [2] ∧
    (thread_wakeup c4base 7).ready_list = [1, 3] ∧
    ((thread_wakeup c4base 7).threads 1).status = .ready ∧
    ((thread_wakeup c4base 7).threads 3).status = .ready ∧
    ((thread_wakeup c4base 7).threads 2).status = .blocked :=
  ⟨by decide,
   by rw [(C4_thm c4base 7 (by decide)).1]; decide,
   by rw [(C4_thm c4base 7 (by decide)).2.1]; decide,
   (C4_thm c4base 7 (by decide)).2.2.1 1 (by decide) (by decide),
   (C4_thm c4base 7 (by decide)).2.2.1 3 (by decide) (by decide),
   ((C4_thm c4base 7 (by decide)).2.2.2.1 2 (by decide) (by decide)).2⟩

/-- C5 counterexample: the running thread 0 lowers its priority from 31
to 10 while thread 1 sits READY at priority 50; thread_set_priority
returns with thread 0 still running and no preemption pending, so the
claimed yield on losing top priority does not happen, and no donor
recomputation exists. -/
theorem C5_counterexample :
    (c5state.threads 0).priority = 10 ∧
    c5state.running = 0 ∧
    (c5state.threads 0).status = .running ∧
    (c5state.threads 1).status = .ready ∧
    (c5state.threads 1).priority = 50 ∧
    c5state.pending_yield = false ∧
    c5state.ready_list = [1] := by
  decide

/-- C5 amended: thread_set_priority assigns the argument to the single
priority field of the running thread and changes nothing else: no donor
based recomputation of an effective priority, no yield, no queue
movement. -/
theorem C5_amended : ∀ (st : KState) (p : Int),
    (thread_set_priority st p).threads
      = (fun x => if x = st.running then { st.threads x with priority := p } else st.threads x) ∧
    (thread_set_priority st p).running = st.running ∧
    (thread_set_priority st p).ready_list = st.ready_list ∧
    (thread_set_priority st p).waiting_list = st.waiting_list ∧
    (thread_set_priority st p).pending_yield = st.pending_yield ∧
    (thread_set_priority st p).freed = st.freed := by
  intro st p
  exact ⟨rfl, rfl, rfl, rfl, rfl, rfl⟩

/-- C7: a thread that exits (status DYING, not the initial thread, not
idle, not already queued anywhere) is not freed during its own final
do_schedule call; instead schedule appends it to the destruction queue,
and the next entry to do_schedule, whatever its status argument, frees
its page. -/
theorem C7_thm : ∀ st : KState,
    (st.threads st.running).status = .running →
    st.running ∉ st.destruction_req →
    st.running ∉ st.ready_list →
    st.running ≠ st.idle_tid →
    st.running ≠ st.initial_tid →
    st.running ∉ st.freed →
    st.running ∉ (thread_exit st).freed ∧
    (thread_exit st).destruction_req = [st.running] ∧
    (∀ s2 : Status, st.running ∈ (do_schedule (thread_exit st) s2).freed) := by
  intro st _hrun hdq hrl hidle hinit hfreed
  have hnext : ∀ n rest, st.ready_list = n :: rest → ¬ (st.running = n) := by
    intro n rest h he
    exact hrl (by simp [h, he])
  rcases hr : st.ready_list with _ | ⟨n, ts⟩
  · have hni : ¬ (st.running = st.idle_tid) := hidle
    have hfr : st.running ∉ (thread_exit st).freed ∧
        (thread_exit st).destruction_req = [st.running] := by
      constructor
      · simp [thread_exit, do_schedule, schedule, next_thread_to_run, updThread, hr,
          apply_ite KState.freed]
        exact ⟨hfreed, hdq⟩
      · simp [thread_exit, do_schedule, schedule, next_thread_to_run, updThread, hr, hni,
          hinit]
    refine ⟨hfr.1, hfr.2, ?_⟩
    intro s2
    simp [do_schedule, schedule, next_thread_to_run, updThread,
      apply_ite KState.freed, hfr.2]
  · have hnn : ¬ (st.running = n) := hnext n ts hr
    have hfr : st.running ∉ (thread_exit st).freed ∧
        (thread_exit st).destruction_req = [st.running] := by
      constructor
      · simp [thread_exit, do_schedule, schedule, next_thread_to_run, updThread, hr,
          apply_ite KState.freed]
        exact ⟨hfreed, hdq⟩
      · simp [thread_exit, do_schedule, schedule, next_thread_to_run, updThread, hr, hnn,
          hinit]
    refine ⟨hfr.1, hfr.2, ?_⟩
    intro s2
    simp [do_schedule, schedule, next_thread_to_run, updThread,
      apply_ite KState.freed, hfr.2]

/-- C7 witness: thread 5 exits while thread 7 is ready; its page reaches
the destruction queue and is freed by the next scheduler pass. -/
theorem C7_witness :
    5 ∉ (thread_exit c7base).freed ∧
    (thread_exit c7base).destruction_req = [5] ∧
    5 ∈ (do_schedule (thread_exit c7base) Status.ready).freed := by
  have h := C7_thm c7base (by decide) (by decide) (by decide) (by decide) (by decide)
    (by decide)
  exact ⟨h.1, h.2.1, h.2.2 Status.ready⟩

/-- Reduction of a bind on an ok value in the Except monad. -/
theorem except_bind_ok {ε α β : Type} (a : α) (f : α → Except ε β) :
    ((Except.ok a : Except ε α) >>= f) = f a := rfl

/-- Reduction of a bind on an error in the Except monad. -/
theorem except_bind_err {ε α β : Type} (e : ε) (f : α → Except ε β) :
    ((Except.error e : Except ε α) >>= f) = Except.error e := rfl

/-- C8 counterexample: the fork syscall carries a pointer argument (the
name), and with the NULL pointer, which fails every check of
check_address, the handler still returns normally to the process with
the process_fork result instead of terminating it with status -1. -/
theorem C8_counterexample :
    check_address c8env 0 = .error (-1) ∧
    syscall_handler c8env (.fork 0) = .returned (some 7) :=
  ⟨rfl, rfl⟩

/-- C8 amended: every pointer-taking handler except fork (create, remove,
open, exec, read, write) validates its pointer through the three checks
of check_address and any violation terminates the process with status
-1; fork alone passes its name pointer through unvalidated and always
returns. -/
theorem C8_amended : ∀ (env : SysEnv) (p sz : Nat) (fd : Int) (n : Nat),
    (check_address env p = .error (-1) →
      syscall_handler env (.create p sz) = .exited (-1) ∧
      syscall_handler env (.remove p) = .exited (-1) ∧
      syscall_handler env (.open p) = .exited (-1) ∧
      syscall_handler env (.exec p) = .exited (-1) ∧
      syscall_handler env (.read fd p n) = .exited (-1) ∧
      syscall_handler env (.write fd p n) = .exited (-1)) ∧
    syscall_handler env (.fork p) = .returned (some env.fork_ret) := by
  intro env p sz fd n
  constructor
  · intro h
    refine ⟨?_, ?_, ?_, ?_, ?_, ?_⟩ <;>
      simp [syscall_handler, sys_create, sys_remove, sys_open, exec, sys_read, write,
        liftOut, h, except_bind_err]
  · rfl

/-- C8 amended witness: with nothing mapped, each pointer-taking handler
exits with -1 on the NULL pointer while fork returns. -/
theorem C8_amended_witness :
    syscall_handler c8env (.create 0 4) = .exited (-1) ∧
    syscall_handler c8env (.remove 0) = .exited (-1) ∧
    syscall_handler c8env (.open 0) = .exited (-1) ∧
    syscall_handler c8env (.exec 0) = .exited (-1) ∧
    syscall_handler c8env (.read 3 0 8) = .exited (-1) ∧
    syscall_handler c8env (.write 3 0 8) = .exited (-1) ∧
    syscall_handler c8env (.fork 0) = .returned (some c8env.fork_ret) := by
  have h := C8_amended c8env 0 4 3 8
  have h1 := h.1 rfl
  exact ⟨h1.1, h1.2.1, h1.2.2.1, h1.2.2.2.1, h1.2.2.2.2.1, h1.2.2.2.2.2, h.2⟩

/-- C9: on a valid mapped command line with a successful page
allocation, exec invokes process_exec twice, not once; with the second
invocation returning -1 the caller is then terminated. -/
theorem C9_thm :
    check_address c9env 4096 = .ok () ∧
    (exec c9env 4096).1 = 2 ∧
    (exec c9env 4096).2 = .error (-1) :=
  ⟨rfl, rfl, rfl⟩

/-- C10: write validates only the first byte of the user buffer, so a
write whose buffer starts at a validated address is never terminated by
pointer validation whatever lies at buffer + size - 1, while sys_read
also validates the last byte, buffer + size - 1, and exits with -1 when
that byte fails the checks. -/
theorem C10_thm :
    (∀ (env : SysEnv) (fd : Int) (buf n : Nat), 1 < n →
      check_address env buf = .ok () → ∃ v, write env fd buf n = .ok v) ∧
    (∀ (env : SysEnv) (fd : Int) (buf n : Nat), 1 < n → buf + n - 1 < 2 ^ 64 →
      check_address env buf = .ok () → check_address env (buf + n - 1) = .error (-1) →
      sys_read env fd buf n = .error (-1)) := by
  constructor
  · intro env fd buf n _hn hok
    simp only [write, hok]
    by_cases h1 : fd = 1
    · exact ⟨Int.ofNat n, by simp [h1]⟩
    · by_cases h0 : fd = 0
      · exact ⟨-1, by simp [h1, h0]⟩
      · by_cases hf : env.has_file fd
        · exact ⟨env.file_write_ret, by simp [h1, h0, hf]⟩
        · exact ⟨-1, by simp [h1, h0, hf]⟩
  · intro env fd buf n hn hlt hok herr
    have harith : (buf + n + (2 ^ 64 - 1)) % 2 ^ 64 = buf + n - 1 := by
      have h1 : buf + n + (2 ^ 64 - 1) = (buf + n - 1) + 2 ^ 64 := by omega
      rw [h1, Nat.add_mod_right, Nat.mod_eq_of_lt hlt]
    unfold sys_read
    rw [hok, except_bind_ok, harith, herr, except_bind_err]

/-- C10 witness: with only address 100 mapped, write(1, 100, 2) is not
rejected although address 101 is unmapped, while read(1, 100, 2) exits
with -1 on the same buffer. -/
theorem C10_witness :
    1 < 2 ∧ check_address c10env 100 = .ok () ∧
    (∃ v, write c10env 1 100 2 = .ok v) ∧
    check_address c10env (100 + 2 - 1) = .error (-1) ∧
    sys_read c10env 1 100 2 = .error (-1) :=
  ⟨by decide, rfl, C10_thm.1 c10env 1 100 2 (by decide) rfl,
   rfl, C10_thm.2 c10env 1 100 2 (by decide) (by decide) rfl rfl⟩

/-
Lemmas for the list_sort development (C6).
-/

/-- A run found by find_end_of_run together with the rest reassembles the
input. -/
theorem find_end_of_run_append (less : α → α → Bool) (x : α) (xs : List α) :
    (find_end_of_run less x xs).1 ++ (find_end_of_run less x xs).2 = x :: xs := by
  induction xs generalizing x with
  | nil => simp [find_end_of_run]
  | cons y ys ih =>
    by_cases h : less y x
    · simp [find_end_of_run, h]
    · simp [find_end_of_run, h, ih y]

/-- The rest after a run is no longer than the tail of the input. -/
theorem find_end_of_run_rest_length (less : α → α → Bool) (x : α) (xs : List α) :
    (find_end_of_run less x xs).2.length ≤ xs.length := by
  induction xs generalizing x with
  | nil => simp [find_end_of_run]
  | cons y ys ih =>
    by_cases h : less y x
    · simp [find_end_of_run, h]
    · simpa [find_end_of_run, h] using Nat.le_succ_of_le (ih y)

/-- A run starts with the element it was started from. -/
theorem find_end_of_run_head (less : α → α → Bool) (x : α) (xs : List α) :
    ∃ r, (find_end_of_run less x xs).1 = x :: r := by
  cases xs with
  | nil => exact ⟨[], rfl⟩
  | cons y ys =>
    by_cases h : less y x
    · exact ⟨[], by simp [find_end_of_run, h]⟩
    · exact ⟨(find_end_of_run less y ys).1, by simp [find_end_of_run, h]⟩

/-- A run is non-descending: no element of it is less than its
predecessor. -/
theorem find_end_of_run_chain (less : α → α → Bool) (x : α) (xs : List α) :
    List.Chain' (fun a b => less b a = false) (find_end_of_run less x xs).1 := by
  induction xs generalizing x with
  | nil => simp [find_end_of_run]
  | cons y ys ih =>
    by_cases h : less y x
    · simp [find_end_of_run, h]
    · have hy := ih y
      obtain ⟨r, hr⟩ := find_end_of_run_head less y ys
      simp only [find_end_of_run, h, if_neg]
      rw [hr] at hy ⊢
      exact List.chain'_cons.mpr ⟨Bool.of_not_eq_true h, hy⟩

/-- Recursion principle following the run decomposition. -/
theorem runsOf_rec (less : α → α → Bool) {P : List α → Prop} (h0 : P [])
    (h1 : ∀ x xs, P (find_end_of_run less x xs).2 → P (x :: xs)) : ∀ l, P l
  | [] => h0
  | x :: xs => h1 x xs (runsOf_rec less h0 h1 (find_end_of_run less x xs).2)
termination_by l => l.length
decreasing_by
  simpa using Nat.lt_succ_of_le (find_end_of_run_rest_length less x xs)

/-- The run decomposition flattens back to the input list. -/
theorem runsOf_flatten (less : α → α → Bool) : ∀ l : List α,
    (runsOf less l).flatten = l := by
  refine runsOf_rec less (by simp [runsOf]) ?_
  intro x xs ih
  rw [runsOf]
  simp only [List.flatten_cons, ih]
  exact find_end_of_run_append less x xs

/-- Every run of the decomposition is non-empty and non-descending. -/
theorem runsOf_mem (less : α → α → Bool) : ∀ l : List α,
    ∀ r ∈ runsOf less l, r ≠ [] ∧ List.Chain' (fun a b => less b a = false) r := by
  refine runsOf_rec less (by simp [runsOf]) ?_
  intro x xs ih r hr
  rw [runsOf] at hr
  simp only [List.mem_cons] at hr
  rcases hr with hr | hr
  · subst hr
    obtain ⟨q, hq⟩ := find_end_of_run_head less x xs
    exact ⟨by simp [hq], find_end_of_run_chain less x xs⟩
  · exact ih r hr

/-- Descents across the run boundary: the descents of a non-empty list
are one for the boundary after its first run, when a rest follows, plus
the descents of the rest. -/
theorem descents_run (less : α → α → Bool) (x : α) (xs : List α) :
    descents less (x :: xs)
      = (if (find_end_of_run less x xs).2.isEmpty then 0 else 1)
        + descents less (find_end_of_run less x xs).2 := by
  induction xs generalizing x with
  | nil => simp [find_end_of_run, descents]
  | cons y ys ih =>
    by_cases h : less y x
    · simp [find_end_of_run, h, descents]
    · have := ih y
      simp only [find_end_of_run, h, Bool.false_eq_true, if_false]
      simpa [descents, h] using this

/-- The number of runs equals the number of descents plus one on a
non-empty list. -/
theorem runsOf_length_eq (less : α → α → Bool) : ∀ l : List α,
    (runsOf less l).length = descents less l + (if l.isEmpty then 0 else 1) := by
  refine runsOf_rec less (by simp [runsOf, descents]) ?_
  intro x xs ih
  rw [runsOf]
  simp only [List.length_cons, ih, descents_run less x xs]
  by_cases h : (find_end_of_run less x xs).2.isEmpty <;> simp [h] <;> omega

/-- Subadditivity of descents over append of non-empty lists. -/
theorem descents_append_le (less : α → α → Bool) :
    ∀ s t : List α, s ≠ [] → t ≠ [] →
      descents less (s ++ t) ≤ descents less s + 1 + descents less t := by
  intro s
  induction s with
  | nil => intro t hs _; exact absurd rfl hs
  | cons a s ih =>
    intro t _ ht
    cases s with
    | nil =>
      cases t with
      | nil => exact absurd rfl ht
      | cons b t' =>
        simp only [List.singleton_append, descents]
        by_cases h : less b a <;> simp [h, descents]
    | cons b s' =>
      have := ih t (by simp) ht
      simp only [List.cons_append, descents] at this ⊢
      by_cases h : less b a <;> simp [h] <;> omega

/-- A non-descending list has no descents. -/
theorem chain_descents (less : α → α → Bool) :
    ∀ s : List α, List.Chain' (fun a b => less b a = false) s → descents less s = 0 := by
  intro s
  induction s with
  | nil => intro _; rfl
  | cons a s ih =>
    intro h
    cases s with
    | nil => rfl
    | cons b s' =>
      rcases List.chain'_cons.mp h with ⟨hab, hrest⟩
      simp [descents, hab, ih hrest]

/-- Flattening non-empty sorted segments yields a list with fewer
descents than segments. -/
theorem flatten_descents (less : α → α → Bool) :
    ∀ segs : List (List α),
      (∀ r ∈ segs, r ≠ [] ∧ List.Chain' (fun a b => less b a = false) r) →
      segs ≠ [] →
      descents less segs.flatten ≤ segs.length - 1 ∧ segs.flatten ≠ [] := by
  intro segs
  induction segs with
  | nil => intro _ h; exact absurd rfl h
  | cons r rest ih =>
    intro hmem _
    have hr := hmem r (by simp)
    cases rest with
    | nil =>
      simp only [List.flatten_cons, List.flatten_nil, List.append_nil]
      exact ⟨by simp [chain_descents less r hr.2], hr.1⟩
    | cons r2 rest' =>
      have hrest := ih (fun q hq => hmem q (by simp [hq])) (by simp)
      constructor
      · calc descents less (r :: r2 :: rest').flatten
            = descents less (r ++ (r2 :: rest').flatten) := by simp
          _ ≤ descents less r + 1 + descents less (r2 :: rest').flatten :=
              descents_append_le less r _ hr.1 hrest.2
          _ = 1 + descents less (r2 :: rest').flatten := by
              simp [chain_descents less r hr.2]
          _ ≤ (r :: r2 :: rest').length - 1 := by
              have := hrest.1
              simp at this ⊢
              omega
      · simp only [List.flatten_cons]
        intro hcontra
        exact hr.1 (List.append_eq_nil.mp hcontra).1

/-- A list of non-empty segments is no longer than its flattening. -/
theorem segs_length_le_flatten (segs : List (List α)) :
    (∀ r ∈ segs, r ≠ []) → segs.length ≤ segs.flatten.length := by
  induction segs with
  | nil => intro _; simp
  | cons r rest ih =>
    intro hmem
    have hr : r.length ≥ 1 := by
      have := hmem r (by simp)
      cases r with
      | nil => exact absurd rfl this
      | cons a q => simp
    have := ih (fun q hq => hmem q (by simp [hq]))
    simp only [List.flatten_cons, List.length_cons, List.length_append]
    omega

/-- Recursion principle following the shape of inplace_merge. -/
theorem mergeInd {P : List α → List α → Prop} (h1 : ∀ xs, P xs [])
    (h2 : ∀ ys, P [] ys)
    (h3 : ∀ x xs y ys, P (x :: xs) ys → P xs (y :: ys) → P (x :: xs) (y :: ys)) :
    ∀ xs ys, P xs ys
  | xs, [] => h1 xs
  | [], y :: ys => h2 (y :: ys)
  | x :: xs, y :: ys =>
    h3 x xs y ys (mergeInd h1 h2 h3 (x :: xs) ys) (mergeInd h1 h2 h3 xs (y :: ys))
termination_by xs ys => xs.length + ys.length
decreasing_by
  all_goals simp only [List.length_cons]
  all_goals omega

/-- The in-place merge is a permutation of the two segments: the same
nodes, spliced, never copied. -/
theorem inplace_merge_perm (less : α → α → Bool) : ∀ xs ys : List α,
    List.Perm (inplace_merge less xs ys) (xs ++ ys) := by
  refine mergeInd ?_ ?_ ?_
  · intro xs
    cases xs <;> simp [inplace_merge]
  · intro ys
    cases ys <;> simp [inplace_merge]
  · intro x xs y ys ih1 ih2
    by_cases h : less y x
    · rw [show inplace_merge less (x :: xs) (y :: ys)
          = y :: inplace_merge less (x :: xs) ys from by simp [inplace_merge, h]]
      exact (ih1.cons y).trans List.perm_middle.symm
    · rw [show inplace_merge less (x :: xs) (y :: ys)
          = x :: inplace_merge less xs (y :: ys) from by simp [inplace_merge, h]]
      exact ih2.cons x

/-- The head of a merge is the head of one of the segments. -/
theorem inplace_merge_head (less : α → α → Bool) (xs ys : List α) :
    (inplace_merge less xs ys).head? = xs.head?
      ∨ (inplace_merge less xs ys).head? = ys.head? := by
  match xs, ys with
  | xs, [] => exact Or.inl (by cases xs <;> simp [inplace_merge])
  | [], y :: ys => exact Or.inr (by simp [inplace_merge])
  | x :: xs, y :: ys =>
    by_cases h : less y x
    · exact Or.inr (by simp [inplace_merge, h])
    · exact Or.inl (by simp [inplace_merge, h])

/-- Merging two non-descending segments yields a non-descending list,
provided the comparator is asymmetric. -/
theorem inplace_merge_chain (less : α → α → Bool)
    (hasym : ∀ a b, less a b = true → less b a = false) : ∀ xs ys : List α,
    List.Chain' (fun a b => less b a = false) xs →
    List.Chain' (fun a b => less b a = false) ys →
    List.Chain' (fun a b => less b a = false) (inplace_merge less xs ys) := by
  refine mergeInd ?_ ?_ ?_
  · intro xs hx _
    cases xs <;> simpa [inplace_merge] using hx
  · intro ys _ hy
    cases ys <;> simpa [inplace_merge] using hy
  · intro x xs y ys ih1 ih2 hx hy
    rcases List.chain'_cons'.mp hx with ⟨hxh, hxt⟩
    rcases List.chain'_cons'.mp hy with ⟨hyh, hyt⟩
    by_cases h : less y x
    · rw [show inplace_merge less (x :: xs) (y :: ys)
          = y :: inplace_merge less (x :: xs) ys by simp [inplace_merge, h]]
      refine List.chain'_cons'.mpr ⟨?_, ih1 hx hyt⟩
      intro z hz
      rcases inplace_merge_head less (x :: xs) ys with hh | hh
      · rw [hh] at hz
        simp only [List.head?_cons, Option.mem_def, Option.some.injEq] at hz
        subst hz
        exact hasym y x h
      · rw [hh] at hz
        exact hyh z hz
    · rw [show inplace_merge less (x :: xs) (y :: ys)
          = x :: inplace_merge less xs (y :: ys) by simp [inplace_merge, h]]
      refine List.chain'_cons'.mpr ⟨?_, ih2 hxt hy⟩
      intro z hz
      rcases inplace_merge_head less xs (y :: ys) with hh | hh
      · rw [hh] at hz
        exact hxh z hz
      · rw [hh] at hz
        simp only [List.head?_cons, Option.mem_def, Option.some.injEq] at hz
        subst hz
        exact Bool.of_not_eq_true h

/-- Recursion principle taking segments two at a time, following
mergePairs. -/
theorem twoStep {P : List (List α) → Prop} (h0 : P []) (h1 : ∀ r, P [r])
    (h2 : ∀ r1 r2 rs, P rs → P (r1 :: r2 :: rs)) : ∀ segs, P segs
  | [] => h0
  | [r] => h1 r
  | r1 :: r2 :: rs => h2 r1 r2 rs (twoStep h0 h1 h2 rs)

/-- One merge pass flattens to a permutation of the flattening of its
input segments. -/
theorem mergePairs_flatten_perm (less : α → α → Bool) : ∀ segs : List (List α),
    List.Perm (mergePairs less segs).flatten segs.flatten := by
  refine twoStep ?_ ?_ ?_
  · simp [mergePairs]
  · intro r
    simp [mergePairs]
  · intro r1 r2 rs ih
    rw [show (mergePairs less (r1 :: r2 :: rs)).flatten
        = inplace_merge less r1 r2 ++ (mergePairs less rs).flatten from by simp [mergePairs]]
    have h := List.Perm.append (inplace_merge_perm less r1 r2) ih
    simpa using h

/-- One merge pass does not increase the number of segments. -/
theorem mergePairs_length_le (less : α → α → Bool) : ∀ segs : List (List α),
    (mergePairs less segs).length ≤ segs.length := by
  refine twoStep ?_ ?_ ?_
  · simp [mergePairs]
  · intro r
    simp [mergePairs]
  · intro r1 r2 rs ih
    simp only [mergePairs, List.length_cons]
    omega

/-- One merge pass on at least two segments strictly decreases the
number of segments. -/
theorem mergePairs_length_lt (less : α → α → Bool) : ∀ segs : List (List α),
    2 ≤ segs.length → (mergePairs less segs).length < segs.length := by
  refine twoStep ?_ ?_ ?_
  · simp [mergePairs]
  · intro r h
    simp at h
  · intro r1 r2 rs _ _
    have := mergePairs_length_le less rs
    simp only [mergePairs, List.length_cons]
    omega

/-- One merge pass preserves non-emptiness and sortedness of every
segment, provided the comparator is asymmetric. -/
theorem mergePairs_mem (less : α → α → Bool)
    (hasym : ∀ a b, less a b = true → less b a = false) : ∀ segs : List (List α),
    (∀ r ∈ segs, r ≠ [] ∧ List.Chain' (fun a b => less b a = false) r) →
    ∀ r ∈ mergePairs less segs,
      r ≠ [] ∧ List.Chain' (fun a b => less b a = false) r := by
  refine twoStep ?_ ?_ ?_
  · intro _ r hr
    simp [mergePairs] at hr
  · intro q hmem r hr
    simp only [mergePairs, List.mem_singleton] at hr
    subst hr
    exact hmem r (by simp)
  · intro r1 r2 rs ih hmem r hr
    simp only [mergePairs, List.mem_cons] at hr
    rcases hr with hr | hr
    · subst hr
      have h1 := hmem r1 (by simp)
      have h2 := hmem r2 (by simp)
      constructor
      · intro hcontra
        have := (inplace_merge_perm less r1 r2).length_eq
        rw [hcontra] at this
        have hl1 : r1.length = 0 ∧ r2.length = 0 := by
          simp at this
          omega
        exact h1.1 (List.length_eq_zero.mp hl1.1)
      · exact inplace_merge_chain less hasym r1 r2 h1.2 h2.2
    · exact ih (fun q hq => hmem q (by simp [hq])) r hr

/-- One pass of list_sort permutes the list, does not increase the run
count beyond the pass output_run_cnt, and its output_run_cnt is bounded
by the run count of the input. -/
theorem sortPass_spec (less : α → α → Bool)
    (hasym : ∀ a b, less a b = true → less b a = false) (l : List α) :
    List.Perm (sortPass less l).1 l ∧
    (runsOf less (sortPass less l).1).length ≤ (sortPass less l).2 ∧
    (sortPass less l).2 ≤ (runsOf less l).length := by
  have hgood : ∀ r ∈ mergePairs less (runsOf less l),
      r ≠ [] ∧ List.Chain' (fun a b => less b a = false) r :=
    mergePairs_mem less hasym (runsOf less l) (runsOf_mem less l)
  refine ⟨?_, ?_, mergePairs_length_le less (runsOf less l)⟩
  · have h := mergePairs_flatten_perm less (runsOf less l)
    rw [runsOf_flatten] at h
    exact h
  · rcases hseg : mergePairs less (runsOf less l) with _ | ⟨r, rest⟩
    · simp [sortPass, hseg, runsOf]
    · have hne : mergePairs less (runsOf less l) ≠ [] := by simp [hseg]
      have hfd := flatten_descents less (mergePairs less (runsOf less l)) hgood hne
      have hlen := runsOf_length_eq less (mergePairs less (runsOf less l)).flatten
      have hemp : (mergePairs less (runsOf less l)).flatten.isEmpty = false := by
        cases hflat : (mergePairs less (runsOf less l)).flatten
        · exact absurd rfl (hflat ▸ hfd.2)
        · rfl
      rw [hemp] at hlen
      simp only [sortPass]
      rw [hlen]
      have h1 := hfd.1
      have h2 : 1 ≤ (mergePairs less (runsOf less l)).length := by
        rw [hseg]
        simp
      simp only [Bool.false_eq_true, if_false]
      omega

/-- When a pass reports at most one output run, its output is sorted. -/
theorem sortPass_exit_sorted (less : α → α → Bool)
    (hasym : ∀ a b, less a b = true → less b a = false) (l : List α)
    (h : (sortPass less l).2 ≤ 1) : sortedUnder less (sortPass less l).1 := by
  have hgood : ∀ r ∈ mergePairs less (runsOf less l),
      r ≠ [] ∧ List.Chain' (fun a b => less b a = false) r :=
    mergePairs_mem less hasym (runsOf less l) (runsOf_mem less l)
  rcases hseg : mergePairs less (runsOf less l) with _ | ⟨r, rest⟩
  · simp [sortedUnder, sortPass, hseg]
  · rcases rest with _ | ⟨r2, rest'⟩
    · have hr := hgood r (by simp [hseg])
      simp only [sortedUnder, sortPass, hseg, List.flatten_cons, List.flatten_nil,
        List.append_nil]
      exact hr.2
    · exfalso
      have : (sortPass less l).2 = (mergePairs less (runsOf less l)).length := rfl
      rw [this, hseg] at h
      simp at h

/-- The do-while loop of list_sort returns, with a sorted permutation of
its input, whenever the fuel exceeds the run count of the input. -/
theorem list_sort_loop_spec (less : α → α → Bool)
    (hasym : ∀ a b, less a b = true → less b a = false) :
    ∀ (fuel : Nat) (l : List α), (runsOf less l).length < fuel →
    ∃ r, list_sort_loop less fuel l = some r ∧ List.Perm r l ∧ sortedUnder less r := by
  intro fuel
  induction fuel with
  | zero =>
    intro l h
    exact absurd h (by omega)
  | succ f ih =>
    intro l hl
    have hp := sortPass_spec less hasym l
    by_cases hc : (sortPass less l).2 > 1
    · have hlt : (runsOf less (sortPass less l).1).length < f := by
        have h2 : (sortPass less l).2 < (runsOf less l).length := by
          have := mergePairs_length_lt less (runsOf less l)
            (by have := hp.2.2; omega)
          exact this
        have h1 := hp.2.1
        omega
      obtain ⟨r, heq, hperm, hsort⟩ := ih (sortPass less l).1 hlt
      refine ⟨r, ?_, hperm.trans hp.1, hsort⟩
      simp only [list_sort_loop]
      rw [if_pos hc]
      exact heq
    · refine ⟨(sortPass less l).1, ?_, hp.1, ?_⟩
      · simp only [list_sort_loop]
        rw [if_neg hc]
      · exact sortPass_exit_sorted less hasym l (by omega)

/-- C6: for a strict weak order comparator, the natural merge sort of
list_sort terminates (the loop exits within length + 1 passes) and
returns a permutation of the input nodes, in non-decreasing order under
the comparator. -/
theorem C6_thm (less : α → α → Bool) (hsw : StrictWeak less) (l : List α) :
    ∃ r, list_sort less l = some r ∧ List.Perm r l ∧ sortedUnder less r := by
  have hasym : ∀ a b, less a b = true → less b a = false := by
    intro a b hab
    cases hba : less b a
    · rfl
    · exact absurd (hsw.2.1 a b a hab hba) (by simp [hsw.1 a])
  have hle : (runsOf less l).length < l.length + 1 := by
    have h2 := segs_length_le_flatten (runsOf less l)
      (fun r hr => (runsOf_mem less l r hr).1)
    rw [runsOf_flatten] at h2
    omega
  exact list_sort_loop_spec less hasym (l.length + 1) l hle

/-- C6 witness: the strict order on naturals is a strict weak order and
sorting the concrete list [3, 1, 2] succeeds with a sorted
permutation. -/
theorem C6_witness :
    StrictWeak lessNat ∧
    ∃ r, list_sort lessNat [3, 1, 2] = some r ∧ List.Perm r [3, 1, 2] ∧
      sortedUnder lessNat r := by
  have hsw : StrictWeak lessNat := by
    refine ⟨?_, ?_, ?_⟩
    · intro a
      simp [lessNat]
    · intro a b c h1 h2
      simp only [lessNat, decide_eq_true_eq] at h1 h2 ⊢
      omega
    · intro a b c h1 h2 h3 h4
      simp only [lessNat, decide_eq_false_iff_not] at h1 h2 h3 h4 ⊢
      omega
  exact ⟨hsw, C6_thm lessNat hsw [3, 1, 2]⟩

end Pintos
